import Mathlib

set_option maxHeartbeats 1000000

/-!
Verification of the JSON response sanitizer and pipeline assembly logic of the
KnowledgeExtractorAI repository (src/gemini_integration.py and
src/healthcare_pipeline.py).

The Python code is shallowly embedded: strings are modelled as `List Char`,
Python's `str.strip`, `str.replace`, `str.split`, `re.sub` and `json.loads`
are given executable Lean models, and the caller-level operations are modelled
as functions of the outcome of the external generative-model call.
-/

namespace KnowledgeExtractor

/-! ### Python string primitives -/

/-- The whitespace characters recognised by Python's `str.strip()` and by the
regex class `\s` on the ASCII inputs this code manipulates:
space, tab, newline, carriage return, vertical tab, form feed. -/
def isPyWs (c : Char) : Bool :=
  c = ' ' || c = '\t' || c = '\n' || c = '\r' || c = '\x0b' || c = '\x0c'

/-- Remove trailing whitespace (the right half of Python's `str.strip()`). -/
def dropTrailingWs (cs : List Char) : List Char :=
  (cs.reverse.dropWhile isPyWs).reverse

/-- Model of Python's `str.strip()`: remove leading and trailing whitespace. -/
def stripChars (cs : List Char) : List Char :=
  dropTrailingWs (cs.dropWhile isPyWs)

/-- Model of Python's `str.strip()` on `String`. -/
def pyStrip (s : String) : String :=
  String.mk (stripChars s.data)

/-- Fuelled scan for `replaceAll`.  Each step consumes at least one input
character and one unit of fuel, so fuel equal to the input length always
suffices; the out-of-fuel branch is never reached from `replaceAll`. -/
def replaceAllAux (pat rep : List Char) : Nat → List Char → List Char
  | 0, cs => cs
  | _ + 1, [] => []
  | fuel + 1, c :: rest =>
    if pat ≠ [] ∧ pat.isPrefixOf (c :: rest) then
      rep ++ replaceAllAux pat rep fuel ((c :: rest).drop pat.length)
    else
      c :: replaceAllAux pat rep fuel rest

/-- Model of Python's `str.replace(pat, rep)`: replace every occurrence of
`pat`, scanning left to right, non-overlapping, skipping past each match. -/
def replaceAll (pat rep cs : List Char) : List Char :=
  replaceAllAux pat rep cs.length cs

/-- Split a list at the first occurrence of `pat` (which must be nonempty to
match): returns the part before the match and the part after it.
`none` when `pat` does not occur.  This is the building block for Python's
`str.split(pat)` as used by the healthcare fence stripper. -/
def splitFirst (pat : List Char) : List Char → Option (List Char × List Char)
  | [] => none
  | c :: rest =>
    if pat ≠ [] ∧ pat.isPrefixOf (c :: rest) then
      some ([], (c :: rest).drop pat.length)
    else
      match splitFirst pat rest with
      | some (before, after) => some (c :: before, after)
      | none => none

/-- Model of `s.split(pat)[0]`: the text before the first occurrence of `pat`
(the whole text when `pat` does not occur). -/
def beforeFirst (pat cs : List Char) : List Char :=
  match splitFirst pat cs with
  | some (before, _) => before
  | none => cs

/-- Model of `s.split(pat)[1]` when `pat` occurs at least once: the segment
between the first occurrence of `pat` and the next one (or the end). -/
def secondSegment (pat cs : List Char) : List Char :=
  match splitFirst pat cs with
  | some (_, rest) =>
    match splitFirst pat rest with
    | some (before, _) => before
    | none => rest
  | none => []

/-- Does `needle` occur as a contiguous substring of `hay`? -/
def containsSubstr (needle : List Char) : List Char → Bool
  | [] => needle.isEmpty
  | c :: rest => needle.isPrefixOf (c :: rest) || containsSubstr needle rest

/-- No backtick occurs in the list: such texts cannot contain a code-fence
marker, so both `str.replace` fence removals leave them unchanged. -/
def noBacktick (cs : List Char) : Bool :=
  cs.all (fun c => !(c == '`'))

/-- Model of Python's `sep.join(items)`. -/
def joinSep (sep : String) : List String → String
  | [] => ""
  | [s] => s
  | s :: rest => s ++ sep ++ joinSep sep rest

/-! ### The two `re.sub` repairs

`re.sub(r",\s*\]", "]", s)` and `re.sub(r",\s*\}", "}", s)` replace a comma
followed by optional whitespace and a closing bracket/brace by the bare
bracket/brace, scanning left to right, non-overlapping. -/

/-- Try to match `\s*close` at the head of the list; on success return the
suffix after the closing character. -/
def matchTail (close : Char) : List Char → Option (List Char)
  | [] => none
  | c :: rest =>
    if c = close then some rest
    else if isPyWs c then matchTail close rest
    else none

/-- Fuelled scan for `reSubCommaClose`.  Each step consumes at least one
input character and one unit of fuel, so fuel equal to the input length
always suffices; the out-of-fuel branch is never reached from
`reSubCommaClose`. -/
def reSubAux (close : Char) : Nat → List Char → List Char
  | 0, cs => cs
  | _ + 1, [] => []
  | fuel + 1, c :: rest =>
    if c = ',' then
      match matchTail close rest with
      | some after => close :: reSubAux close fuel after
      | none => c :: reSubAux close fuel rest
    else
      c :: reSubAux close fuel rest

/-- Model of `re.sub(",\s*" ++ close, close, ·)`: at each position, if a comma
followed by whitespace and `close` matches, emit `close` and resume after the
match; otherwise copy the character. -/
def reSubCommaClose (close : Char) (cs : List Char) : List Char :=
  reSubAux close cs.length cs

/-- Is there any position where the pattern `,\s*close` matches? -/
def hasMatch (close : Char) : List Char → Bool
  | [] => false
  | c :: rest => (c = ',' && (matchTail close rest).isSome) || hasMatch close rest

/-- Does the list contain a comma followed only by whitespace up to its end?
Such a suffix would let a regex match spill over a concatenation boundary. -/
def commaThenWsToEnd : List Char → Bool
  | [] => false
  | c :: rest => (c = ',' && rest.all isPyWs) || commaThenWsToEnd rest

/-! ### JSON values and a model of `json.loads` -/

/-- JSON values as produced by Python's `json.loads`.  Numbers are modelled as
integers: no input involved in any claim uses fractional or exponent numerals,
and the model parser rejects them. -/
inductive Json where
  | null : Json
  | bool (b : Bool) : Json
  | num (n : Int) : Json
  | str (s : String) : Json
  | arr (items : List Json) : Json
  | obj (fields : List (String × Json)) : Json
  deriving Repr

/-- The character produced by a single-character JSON string escape
(`\"`, `\\`, `\/`, `\b`, `\f`, `\n`, `\r`, `\t`).  `\uXXXX` escapes are
outside the fragment modelled here (no claim input uses them). -/
def escapeChar (c : Char) : Option Char :=
  if c = '"' then some '"'
  else if c = '\\' then some '\\'
  else if c = '/' then some '/'
  else if c = 'b' then some '\x08'
  else if c = 'f' then some '\x0c'
  else if c = 'n' then some '\n'
  else if c = 'r' then some '\r'
  else if c = 't' then some '\t'
  else none

/-- Parse the body of a JSON string after the opening quote, up to and
including the closing quote.  Unescaped control characters are rejected,
as Python's strict-mode `json.loads` does. -/
def parseStringBody : List Char → Except String (List Char × List Char)
  | [] => .error "Unterminated string"
  | c :: rest =>
    if c = '"' then .ok ([], rest)
    else if c = '\\' then
      match rest with
      | [] => .error "Unterminated string escape"
      | e :: rest2 =>
        match escapeChar e with
        | some ec => (parseStringBody rest2).map (fun p => (ec :: p.1, p.2))
        | none => .error "Unsupported escape"
    else if c.toNat < 32 then .error "Invalid control character"
    else (parseStringBody rest).map (fun p => (c :: p.1, p.2))

/-- Maximal run of decimal digits at the head of the list. -/
def takeDigits : List Char → (List Char × List Char)
  | [] => ([], [])
  | c :: rest =>
    if c.isDigit then
      let p := takeDigits rest
      (c :: p.1, p.2)
    else ([], c :: rest)

/-- Numeric value of a digit run. -/
def digitsToNat (ds : List Char) : Nat :=
  ds.foldl (fun acc c => 10 * acc + (c.toNat - 48)) 0

/-- Reject a fractional part or exponent after an integer literal: floats are
outside the integer fragment modelled here (no claim input uses them). -/
def rejectFrac (n : Int) (rest : List Char) : Except String (Int × List Char) :=
  match rest with
  | c :: _ =>
    if c = '.' || c = 'e' || c = 'E' then .error "Non-integer numeral"
    else .ok (n, rest)
  | [] => .ok (n, rest)

/-- Parse a JSON integer numeral, following the JSON grammar: an optional
minus sign, then either a single `0` or a nonzero digit followed by more
digits (so `01` parses as `0` with `1` left over, exactly as Python's
`json.loads` scanner behaves). -/
def parseNumberLit (cs : List Char) : Except String (Int × List Char) :=
  let signed : Bool × List Char :=
    match cs with
    | '-' :: r => (true, r)
    | _ => (false, cs)
  match signed.2 with
  | c :: rest =>
    if c = '0' then
      rejectFrac 0 rest
    else if c.isDigit then
      let p := takeDigits (c :: rest)
      let n : Int := Int.ofNat (digitsToNat p.1)
      rejectFrac (if signed.1 then -n else n) p.2
    else .error "Expecting value"
  | [] => .error "Expecting value"

/-- Skip whitespace. -/
def skipWs (cs : List Char) : List Char := cs.dropWhile isPyWs

mutual
/-- Parse one JSON value at the head of the input (after optional leading
whitespace); returns the value and the unconsumed suffix.  `fuel` bounds the
recursion depth; callers supply more fuel than any input can consume. -/
def parseValue : Nat → List Char → Except String (Json × List Char)
  | 0, _ => .error "Out of fuel"
  | fuel + 1, cs =>
    match skipWs cs with
    | [] => .error "Expecting value"
    | c :: rest =>
      if c = '"' then
        (parseStringBody rest).map (fun p => (Json.str (String.mk p.1), p.2))
      else if c = '[' then
        match skipWs rest with
        | ']' :: rest2 => .ok (Json.arr [], rest2)
        | other => (parseItems fuel other).map (fun p => (Json.arr p.1, p.2))
      else if c = '{' then
        match skipWs rest with
        | '}' :: rest2 => .ok (Json.obj [], rest2)
        | other => (parseMembers fuel other).map (fun p => (Json.obj p.1, p.2))
      else if List.isPrefixOf ['t', 'r', 'u', 'e'] (c :: rest) then
        .ok (Json.bool true, (c :: rest).drop 4)
      else if List.isPrefixOf ['f', 'a', 'l', 's', 'e'] (c :: rest) then
        .ok (Json.bool false, (c :: rest).drop 5)
      else if List.isPrefixOf ['n', 'u', 'l', 'l'] (c :: rest) then
        .ok (Json.null, (c :: rest).drop 4)
      else if c = '-' || c.isDigit then
        (parseNumberLit (c :: rest)).map (fun p => (Json.num p.1, p.2))
      else .error "Expecting value"

/-- Parse the comma-separated items of a nonempty JSON array, up to and
including the closing bracket. -/
def parseItems : Nat → List Char → Except String (List Json × List Char)
  | 0, _ => .error "Out of fuel"
  | fuel + 1, cs => do
    let (v, rest) ← parseValue fuel cs
    match skipWs rest with
    | ',' :: rest2 =>
      let p ← parseItems fuel rest2
      .ok (v :: p.1, p.2)
    | ']' :: rest2 => .ok ([v], rest2)
    | _ => .error "Expecting comma or closing bracket"

/-- Parse the comma-separated members of a nonempty JSON object, up to and
including the closing brace. -/
def parseMembers : Nat → List Char → Except String (List (String × Json) × List Char)
  | 0, _ => .error "Out of fuel"
  | fuel + 1, cs =>
    match skipWs cs with
    | '"' :: rest => do
      let (key, rest1) ← parseStringBody rest
      match skipWs rest1 with
      | ':' :: rest2 => do
        let (v, rest3) ← parseValue fuel rest2
        match skipWs rest3 with
        | ',' :: rest4 =>
          let p ← parseMembers fuel rest4
          .ok ((String.mk key, v) :: p.1, p.2)
        | '}' :: rest4 => .ok ([(String.mk key, v)], rest4)
        | _ => .error "Expecting comma or closing brace"
      | _ => .error "Expecting colon"
    | _ => .error "Expecting property name"
end

/-- Model of Python's `json.loads`.  `json.loads` skips whitespace around the
document and requires only whitespace to follow the value; on an input with
its surrounding whitespace removed this is equivalent to requiring that the
value consume the whole input, which is how it is phrased here. -/
def jsonParse (s : String) : Except String Json :=
  let t := stripChars s.data
  match parseValue (2 * t.length + 2) t with
  | .ok (v, rest) => if rest.isEmpty then .ok v else .error "Extra data"
  | .error e => .error e

/-! ### The gemini_integration.py sanitizer (`_parse_gemini_json_response`) -/

/-- The fence marker with language tag, `"```json"`. -/
def tickJson : List Char := "```json".data

/-- The bare fence marker, `"```"`. -/
def tick3 : List Char := "```".data

/-- Lines 72–74 of src/gemini_integration.py:
`response_text.strip().replace("```json", "").replace("```", "").strip()`. -/
def gemFenceStrip (cs : List Char) : List Char :=
  stripChars (replaceAll tick3 [] (replaceAll tickJson [] (stripChars cs)))

/-- Lines 76–80 of src/gemini_integration.py: the two `re.sub` repairs,
applied in source order (`,\s*\]` first, then `,\s*\}`). -/
def repairCommas (cs : List Char) : List Char :=
  reSubCommaClose '}' (reSubCommaClose ']' cs)

/-- The full cleaning pipeline of `_parse_gemini_json_response` before the
`json.loads` call. -/
def cleanResponse (s : String) : String :=
  String.mk (repairCommas (gemFenceStrip s.data))

/-- Severity of a log record. -/
inductive LogLevel where
  | info : LogLevel
  | error : LogLevel
  deriving Repr, DecidableEq

/-- One emitted log record. -/
structure LogEntry where
  level : LogLevel
  message : String
  deriving Repr, DecidableEq

/-- Model of `GeminiIntegration._parse_gemini_json_response` (lines 60–87):
log the raw response at info severity, clean it, attempt `json.loads`; on
failure log the decode error and the cleaned text at error severity and
re-raise (modelled as `Except.error`). -/
def parse_gemini_json_response (t : String) : List LogEntry × Except String Json :=
  let cleaned := cleanResponse t
  match jsonParse cleaned with
  | .ok v => ([⟨.info, "Gemini raw response:\n" ++ t⟩], .ok v)
  | .error e =>
    ([⟨.info, "Gemini raw response:\n" ++ t⟩,
      ⟨.error, "Error decoding JSON from Gemini response: " ++ e⟩,
      ⟨.error, "Problematic cleaned response: " ++ cleaned⟩],
     .error e)

/-! ### The external generative-model call

The callers issue a single `generate_content` call and then branch only on
whether the call raised and on the text it returned, so each caller is
modelled as a function of the call's outcome. -/

/-- Outcome of an external `generate_content` call: the call raised, or it
returned an object whose `.text` field is the given string. -/
inductive ModelOutcome where
  | failure : ModelOutcome
  | success (text : String) : ModelOutcome

/-- The fallback record of `GeminiIntegration.parse_requirements` (line 118). -/
def demoRequirementRecord : Json :=
  .obj [("requirement_id", .str "REQ-001-DEMO"),
        ("title", .str "Demo Title"),
        ("description", .str "Demo Description"),
        ("acceptance_criteria", .str "Demo Criteria")]

/-- The JSON-decode-failure fallback of
`GeminiIntegration.generate_test_cases_with_compliance` (line 158). -/
def demoTestCaseJsonError : Json :=
  .obj [("test_case_id", .str "TC-DEMO-JSON-ERROR"),
        ("title", .str "Demo Test Case (JSON Error)"),
        ("description", .str "Demo Description"),
        ("steps", .str "Demo Steps"),
        ("expected_results", .str "Demo Results")]

/-- The API-failure fallback of
`GeminiIntegration.generate_test_cases_with_compliance` (line 161). -/
def demoTestCaseApiError : Json :=
  .obj [("test_case_id", .str "TC-DEMO-API-ERROR"),
        ("title", .str "Demo Test Case (API Error)"),
        ("description", .str "Demo Description"),
        ("steps", .str "Demo Steps"),
        ("expected_results", .str "Demo Results")]

/-- Model of `GeminiIntegration.parse_requirements` (lines 89–118): the
`except (json.JSONDecodeError, Exception)` clause catches every exception —
both a failed API call and a sanitizer parse failure — and falls back to a
single demo record. -/
def parse_requirements (outcome : ModelOutcome) : Json :=
  match outcome with
  | .failure => .arr [demoRequirementRecord]
  | .success t =>
    match (parse_gemini_json_response t).2 with
    | .ok v => v
    | .error _ => .arr [demoRequirementRecord]

/-- Model of `GeminiIntegration.generate_test_cases_with_compliance`
(lines 120–161): `json.JSONDecodeError` (a sanitizer parse failure) falls
back to the JSON-error demo record; any other exception (a failed API call)
falls back to the API-error demo record. -/
def generate_test_cases_with_compliance (outcome : ModelOutcome) : Json :=
  match outcome with
  | .failure => .arr [demoTestCaseApiError]
  | .success t =>
    match (parse_gemini_json_response t).2 with
    | .ok v => v
    | .error _ => .arr [demoTestCaseJsonError]

/-! ### healthcare_pipeline.py data model -/

/-- The `HealthcareRequirement` dataclass (lines 31–42), with the field types
of its annotations. -/
structure HealthcareRequirement where
  requirement_id : String
  title : String
  description : String
  priority : String
  acceptance_criteria : List String
  risk_class : String
  iec_class : String
  traceability_links : List String
  compliance_standards : List String
  deriving Repr, DecidableEq

/-- One entry of a test case's `steps` list, with the shape used throughout
the module: `{"step": 1, "action": ..., "expected_result": ...}`. -/
structure StepRecord where
  step : Int
  action : String
  expected_result : String
  deriving Repr, DecidableEq

/-- The `HealthcareTestCase` dataclass (lines 53–67), with the field types of
its annotations. -/
structure HealthcareTestCase where
  test_case_id : String
  requirement_id : String
  title : String
  description : String
  test_type : String
  priority : String
  steps : List StepRecord
  expected_results : String
  compliance_validation : String
  regulatory_citations : List String
  risk_category : String
  automation_feasible : Bool
  deriving Repr, DecidableEq

def Json.asString : Json → Option String
  | .str s => some s
  | _ => none

def Json.asStringList : Json → Option (List String)
  | .arr items => items.mapM Json.asString
  | _ => none

def Json.asInt : Json → Option Int
  | .num n => some n
  | _ => none

def Json.asBool : Json → Option Bool
  | .bool b => some b
  | _ => none

/-- The declared fields of `HealthcareRequirement`, in declaration order. -/
def requirementFieldNames : List String :=
  ["requirement_id", "title", "description", "priority", "acceptance_criteria",
   "risk_class", "iec_class", "traceability_links", "compliance_standards"]

/-- The declared fields of `HealthcareTestCase`, in declaration order. -/
def testCaseFieldNames : List String :=
  ["test_case_id", "requirement_id", "title", "description", "test_type",
   "priority", "steps", "expected_results", "compliance_validation",
   "regulatory_citations", "risk_category", "automation_feasible"]

/-- Calling a dataclass constructor with `Cls(kw)` raises `TypeError`
unless every declared field (none has a default) is among the keys and every
key is a declared field. -/
def dataclassAccepts (fields : List String) (kw : List (String × Json)) : Bool :=
  fields.all (fun f => (kw.lookup f).isSome) && kw.all (fun p => fields.contains p.1)

def decodeStep (j : Json) : Option StepRecord :=
  match j with
  | .obj kw => do
    let s ← (kw.lookup "step").bind Json.asInt
    let a ← (kw.lookup "action").bind Json.asString
    let e ← (kw.lookup "expected_result").bind Json.asString
    pure ⟨s, a, e⟩
  | _ => none

/-- Mapping a parsed object into a `HealthcareRequirement` by
`HealthcareRequirement(req_data)` (line 258): `TypeError` when a required
field is missing or an unknown key is supplied; field values are read per the
dataclass annotations. -/
def decodeRequirement (j : Json) : Option HealthcareRequirement :=
  match j with
  | .obj kw =>
    if dataclassAccepts requirementFieldNames kw then do
      let requirement_id ← (kw.lookup "requirement_id").bind Json.asString
      let title ← (kw.lookup "title").bind Json.asString
      let description ← (kw.lookup "description").bind Json.asString
      let priority ← (kw.lookup "priority").bind Json.asString
      let acceptance_criteria ← (kw.lookup "acceptance_criteria").bind Json.asStringList
      let risk_class ← (kw.lookup "risk_class").bind Json.asString
      let iec_class ← (kw.lookup "iec_class").bind Json.asString
      let traceability_links ← (kw.lookup "traceability_links").bind Json.asStringList
      let compliance_standards ← (kw.lookup "compliance_standards").bind Json.asStringList
      pure { requirement_id, title, description, priority, acceptance_criteria,
             risk_class, iec_class, traceability_links, compliance_standards }
    else none
  | _ => none

/-- Mapping a parsed object into a `HealthcareTestCase` by
`HealthcareTestCase(tc_data)` (line 330). -/
def decodeTestCase (j : Json) : Option HealthcareTestCase :=
  match j with
  | .obj kw =>
    if dataclassAccepts testCaseFieldNames kw then do
      let test_case_id ← (kw.lookup "test_case_id").bind Json.asString
      let requirement_id ← (kw.lookup "requirement_id").bind Json.asString
      let title ← (kw.lookup "title").bind Json.asString
      let description ← (kw.lookup "description").bind Json.asString
      let test_type ← (kw.lookup "test_type").bind Json.asString
      let priority ← (kw.lookup "priority").bind Json.asString
      let steps ← (kw.lookup "steps").bind (fun v =>
        match v with
        | .arr items => items.mapM decodeStep
        | _ => none)
      let expected_results ← (kw.lookup "expected_results").bind Json.asString
      let compliance_validation ← (kw.lookup "compliance_validation").bind Json.asString
      let regulatory_citations ← (kw.lookup "regulatory_citations").bind Json.asStringList
      let risk_category ← (kw.lookup "risk_category").bind Json.asString
      let automation_feasible ← (kw.lookup "automation_feasible").bind Json.asBool
      pure { test_case_id, requirement_id, title, description, test_type, priority,
             steps, expected_results, compliance_validation, regulatory_citations,
             risk_category, automation_feasible }
    else none
  | _ => none

/-- The `for req_data in requirements_data` loop (lines 256–258): anything
other than an array whose every element maps into the record type raises. -/
def decodeRequirementList (v : Json) : Option (List HealthcareRequirement) :=
  match v with
  | .arr items => items.mapM decodeRequirement
  | _ => none

/-- The `for tc_data in test_cases_data` loop (lines 328–330). -/
def decodeTestCaseList (v : Json) : Option (List HealthcareTestCase) :=
  match v with
  | .arr items => items.mapM decodeTestCase
  | _ => none

/-! ### healthcare_pipeline.py operations -/

/-- Lines 249–251 (and identically 321–323): strip the response, and when it
starts with `"```json"` take `response_text.split("```json")[1].split("```")[0]`. -/
def healthcareFenceStrip (s : String) : String :=
  let t := stripChars s.data
  if tickJson.isPrefixOf t then
    String.mk (beforeFirst tick3 (secondSegment tickJson t))
  else
    String.mk t

/-- The fallback requirement of `parse_requirements_from_text`
(lines 266–276). -/
def demoHealthcareRequirement : HealthcareRequirement :=
  { requirement_id := "REQ-DEMO-001"
    title := "Sample Healthcare Requirement"
    description := "Demo requirement for hackathon"
    priority := "High"
    acceptance_criteria := ["Demo criteria 1", "Demo criteria 2"]
    risk_class := "Medium"
    iec_class := "Class B"
    traceability_links := ["FDA 21CFR820", "IEC 62304"]
    compliance_standards := ["FDA", "IEC 62304"] }

/-- The fallback test case of `generate_test_cases_for_requirement`
(lines 338–351): its identifier is `TC-<requirement_id>-001`. -/
def fallbackTestCase (req : HealthcareRequirement) : HealthcareTestCase :=
  { test_case_id := "TC-" ++ req.requirement_id ++ "-001"
    requirement_id := req.requirement_id
    title := "Sample Test Case"
    description := "Demo test case for hackathon"
    test_type := "Positive"
    priority := req.priority
    steps := [⟨1, "Demo action", "Demo result"⟩]
    expected_results := "Demo expected results"
    compliance_validation := "Demo compliance validation"
    regulatory_citations := ["IEC 62304 Demo"]
    risk_category := "Safety"
    automation_feasible := true }

/-- Model of `HealthcareGeminiIntegration.parse_requirements_from_text`
(lines 229–276): any exception inside the `try` block — the API call, the
`json.loads`, or the record mapping — falls back to one demo requirement. -/
def parse_requirements_from_text (outcome : ModelOutcome) : List HealthcareRequirement :=
  match outcome with
  | .failure => [demoHealthcareRequirement]
  | .success t =>
    match jsonParse (healthcareFenceStrip t) with
    | .error _ => [demoHealthcareRequirement]
    | .ok v =>
      match decodeRequirementList v with
      | some reqs => reqs
      | none => [demoHealthcareRequirement]

/-- Model of `HealthcareGeminiIntegration.generate_test_cases_for_requirement`
(lines 278–351).  The compliance-knowledge search (lines 284–292) catches its
own exceptions and only shapes the prompt, so it does not appear in the model;
any exception in the `try` block falls back to one sample test case. -/
def generate_test_cases_for_requirement (req : HealthcareRequirement)
    (outcome : ModelOutcome) : List HealthcareTestCase :=
  match outcome with
  | .failure => [fallbackTestCase req]
  | .success t =>
    match jsonParse (healthcareFenceStrip t) with
    | .error _ => [fallbackTestCase req]
    | .ok v =>
      match decodeTestCaseList v with
      | some tcs => tcs
      | none => [fallbackTestCase req]

/-! ### Exports and traceability -/

/-- Model of `req_map = {req.requirement_id: req for req in requirements}` and
`req_map.get(id)`: a dict comprehension keeps the last requirement with a
given identifier. -/
def reqMapGet (reqs : List HealthcareRequirement) (id : String) :
    Option HealthcareRequirement :=
  reqs.foldl (fun acc r => if r.requirement_id == id then some r else acc) none

/-- One line of the Jira `steps_text` (line 361). -/
def stepLine (s : StepRecord) : String :=
  toString s.step ++ ". " ++ s.action ++ " | " ++ s.expected_result

/-- Field lookup on a JSON object. -/
def jsonField (j : Json) (k : String) : Option Json :=
  match j with
  | .obj kw => kw.lookup k
  | _ => none

/-- The Jira record built for one test case
(`export_to_jira_format`, lines 359–383). -/
def jiraRecord (reqs : List HealthcareRequirement) (tc : HealthcareTestCase) : Json :=
  let steps_text := joinSep "\n" (tc.steps.map stepLine)
  let compliance_standards : List String :=
    match reqMapGet reqs tc.requirement_id with
    | some r => r.compliance_standards
    | none => []
  Json.obj [("issueType", .str "Test Case"),
    ("fields", Json.obj [
      ("summary", .str tc.title),
      ("description", .str tc.description),
      ("customfield_10001", .str tc.requirement_id),
      ("customfield_10002", .str tc.test_case_id),
      ("customfield_10003", .str steps_text),
      ("customfield_10004", .str tc.expected_results),
      ("priority", Json.obj [("name", .str tc.priority)]),
      ("customfield_10005", Json.arr (compliance_standards.map .str)),
      ("customfield_10006", .str tc.risk_category),
      ("customfield_10007", Json.arr (tc.regulatory_citations.map .str)),
      ("labels", Json.arr [.str tc.test_type, .str tc.risk_category,
        .str "Healthcare",
        .str (if tc.automation_feasible then "Automated" else "Manual")])])]

/-- Model of `HealthcareGeminiIntegration.export_to_jira_format`
(lines 353–385). -/
def export_to_jira_format (tcs : List HealthcareTestCase)
    (reqs : List HealthcareRequirement) : List Json :=
  tcs.map (jiraRecord reqs)

/-- One `<step .../>` element of the Azure DevOps steps XML (line 396). -/
def stepXml (s : StepRecord) : String :=
  "<step id=\x27" ++ toString s.step ++
    "\x27><parameterizedString isformatted=\x27true\x27><![CDATA[" ++ s.action ++
    "]]></parameterizedString><parameterizedString isformatted=\x27true\x27><![CDATA[" ++
    s.expected_result ++ "]]></parameterizedString><description/></step>"

/-- The Azure DevOps record built for one test case
(`export_to_azure_devops_format`, lines 393–413). -/
def azureRecord (reqs : List HealthcareRequirement) (tc : HealthcareTestCase) : Json :=
  let steps_xml := tc.steps.foldl (fun acc s => acc ++ stepXml s) ""
  let compliance_standards : String :=
    match reqMapGet reqs tc.requirement_id with
    | some r => joinSep ", " r.compliance_standards
    | none => ""
  Json.obj [("workItemType", .str "Test Case"),
    ("fields", Json.obj [
      ("System.Title", .str tc.title),
      ("System.Description", .str tc.description),
      ("Microsoft.VSTS.TCM.Steps", .str ("<steps>" ++ steps_xml ++ "</steps>")),
      ("Custom.RequirementLink", .str tc.requirement_id),
      ("Custom.ComplianceStandard", .str compliance_standards),
      ("Custom.RiskCategory", .str tc.risk_category),
      ("Custom.RegulatoryCitations", .str (joinSep ", " tc.regulatory_citations)),
      ("System.Tags", .str (tc.test_type ++ "; " ++ tc.risk_category ++ "; Healthcare"))])]

/-- Model of `HealthcareGeminiIntegration.export_to_azure_devops_format`
(lines 387–415). -/
def export_to_azure_devops_format (tcs : List HealthcareTestCase)
    (reqs : List HealthcareRequirement) : List Json :=
  tcs.map (azureRecord reqs)

/-- The traceability entry built for one requirement
(`_generate_traceability_matrix`, lines 496–509). -/
def traceabilityEntry (tcs : List HealthcareTestCase)
    (req : HealthcareRequirement) : Json :=
  let linked := tcs.filter (fun tc => tc.requirement_id == req.requirement_id)
  Json.obj [("requirement_id", .str req.requirement_id),
    ("requirement_title", .str req.title),
    ("priority", .str req.priority),
    ("risk_class", .str req.risk_class),
    ("iec_class", .str req.iec_class),
    ("test_cases", Json.arr (linked.map (fun tc => .str tc.test_case_id))),
    ("test_coverage", .num linked.length),
    ("compliance_standards", Json.arr (req.compliance_standards.map .str)),
    ("regulatory_traceability", Json.arr (req.traceability_links.map .str))]

/-- Model of `HealthcareRAGPipeline._generate_traceability_matrix`
(lines 491–511): one entry per requirement, in order. -/
def generate_traceability_matrix (reqs : List HealthcareRequirement)
    (tcs : List HealthcareTestCase) : List Json :=
  reqs.map (traceabilityEntry tcs)

/-! ### The end-to-end pipeline -/

/-- The `summary` object of the pipeline result (lines 484–488).  The
coverage percentage is computed with exact rational arithmetic; the claims
about it concern only which branch of the guard is taken. -/
structure PipelineSummary where
  total_requirements : Nat
  total_test_cases : Nat
  coverage_percentage : Rat
  deriving Repr

/-- The dictionary returned by `process_healthcare_document` (lines 475–489).
The Polarion XML export is pure serialization no claim touches and is omitted
from the model. -/
structure PipelineResult where
  requirements : List HealthcareRequirement
  test_cases : List HealthcareTestCase
  jira_export : List Json
  azure_devops_export : List Json
  traceability_matrix : List Json
  summary : PipelineSummary

/-- Model of `HealthcareRAGPipeline.process_healthcare_document`
(lines 452–489).  `tcOutcome i` is the outcome of the generation call issued
for the i-th parsed requirement (the calls are strictly sequential). -/
def process_healthcare_document (reqOutcome : ModelOutcome)
    (tcOutcome : Nat → ModelOutcome) : PipelineResult :=
  let requirements := parse_requirements_from_text reqOutcome
  let all_test_cases :=
    (requirements.enum.map
      (fun p => generate_test_cases_for_requirement p.2 (tcOutcome p.1))).flatten
  { requirements := requirements
    test_cases := all_test_cases
    jira_export := export_to_jira_format all_test_cases requirements
    azure_devops_export := export_to_azure_devops_format all_test_cases requirements
    traceability_matrix := generate_traceability_matrix requirements all_test_cases
    summary :=
      { total_requirements := requirements.length
        total_test_cases := all_test_cases.length
        coverage_percentage :=
          if requirements.isEmpty then 0
          else (all_test_cases.length : Rat) / (requirements.length : Rat) * 100 } }

/-! ### Failure predicates and the placeholder sentinel -/

/-- Does `json.loads` fail on the cleaned form of this response text?  This is
exactly the condition under which `_parse_gemini_json_response` raises. -/
def geminiSanitizeFails (t : String) : Bool :=
  match jsonParse (cleanResponse t) with
  | .error _ => true
  | .ok _ => false

/-- The conditions under which `parse_requirements_from_text` takes its
fallback path: the call raised, `json.loads` raised, or the record mapping
raised. -/
def healthcareRequirementParseFails : ModelOutcome → Bool
  | .failure => true
  | .success t =>
    match jsonParse (healthcareFenceStrip t) with
    | .error _ => true
    | .ok v => (decodeRequirementList v).isNone

/-- The conditions under which `generate_test_cases_for_requirement` takes
its fallback path. -/
def healthcareTestCaseParseFails : ModelOutcome → Bool
  | .failure => true
  | .success t =>
    match jsonParse (healthcareFenceStrip t) with
    | .error _ => true
    | .ok v => (decodeTestCaseList v).isNone

/-- The sentinel that marks placeholder records: every fixed fallback
identifier in the repository except one embeds the substring `DEMO`, and §7 of
the specification promises entries "clearly distinguishable by a sentinel
identifier prefix". -/
def containsDemoSentinel (s : String) : Bool :=
  containsSubstr "DEMO".data s.data

/-! ### Lemmas about the `re.sub` scan -/

theorem matchTail_append_some {close : Char} :
    ∀ {cs after : List Char} (r : List Char), matchTail close cs = some after →
      matchTail close (cs ++ r) = some (after ++ r) := by
  intro cs
  induction cs with
  | nil => intro after r h; simp [matchTail] at h
  | cons c rest ih =>
    intro after r h
    simp only [matchTail] at h
    simp only [List.cons_append, matchTail]
    by_cases hc : c = close
    · rw [if_pos hc] at h
      rw [if_pos hc]
      cases h
      rfl
    · rw [if_neg hc] at h
      rw [if_neg hc]
      by_cases hws : isPyWs c = true
      · rw [if_pos hws] at h
        rw [if_pos hws]
        exact ih r h
      · rw [if_neg hws] at h
        exact absurd h (by simp)

theorem matchTail_append_none {close : Char} :
    ∀ {cs : List Char} (r : List Char), matchTail close cs = none →
      cs.all isPyWs = false → matchTail close (cs ++ r) = none := by
  intro cs
  induction cs with
  | nil => intro r _ hall; simp at hall
  | cons c rest ih =>
    intro r h hall
    simp only [matchTail] at h
    simp only [List.cons_append, matchTail]
    split at h
    · cases h
    · rename_i hclose
      rw [if_neg hclose]
      by_cases hws : isPyWs c
      · rw [if_pos hws]
        rw [if_pos hws] at h
        simp only [List.all_cons, hws, Bool.true_and] at hall
        exact ih r h hall
      · rw [if_neg hws]

theorem matchTail_ws_close {close : Char} (hc : isPyWs close = false) :
    ∀ {w : List Char}, w.all isPyWs = true → matchTail close (w ++ [close]) = some [] := by
  intro w
  induction w with
  | nil => intro _; simp [matchTail]
  | cons c rest ih =>
    intro hall
    simp only [List.all_cons, Bool.and_eq_true] at hall
    simp only [List.cons_append, matchTail]
    have hne : ¬ c = close := by
      intro h
      rw [h, hc] at hall
      exact absurd hall.1 (by simp)
    rw [if_neg hne, if_pos hall.1]
    exact ih hall.2

theorem matchTail_ws_other {close d : Char} (hcws : isPyWs close = false)
    (hd : ¬ d = close) (hdws : isPyWs d = false) :
    ∀ {w : List Char}, w.all isPyWs = true → matchTail close (w ++ [d]) = none := by
  intro w
  induction w with
  | nil => intro _; simp [matchTail, hd, hdws]
  | cons c rest ih =>
    intro hall
    simp only [List.all_cons, Bool.and_eq_true] at hall
    simp only [List.cons_append, matchTail]
    have hc : ¬ c = close := by
      intro h
      rw [h, hcws] at hall
      exact absurd hall.1 (by simp)
    rw [if_neg hc, if_pos hall.1]
    exact ih hall.2

theorem hasMatch_append_left {close : Char} :
    ∀ {a : List Char} (b : List Char), hasMatch close a = true →
      hasMatch close (a ++ b) = true := by
  intro a
  induction a with
  | nil => intro b h; simp [hasMatch] at h
  | cons c rest ih =>
    intro b h
    simp only [hasMatch, Bool.or_eq_true, Bool.and_eq_true] at h
    simp only [List.cons_append, hasMatch, Bool.or_eq_true, Bool.and_eq_true]
    rcases h with ⟨hc, hsome⟩ | h
    · left
      refine ⟨hc, ?_⟩
      rcases Option.isSome_iff_exists.mp hsome with ⟨after, hafter⟩
      have := matchTail_append_some b hafter
      simp only [List.append_eq] at this ⊢
      rw [this]
      simp
    · right
      exact ih b h

theorem hasMatch_append_right {close : Char} :
    ∀ (a : List Char) {b : List Char}, hasMatch close b = true →
      hasMatch close (a ++ b) = true := by
  intro a
  induction a with
  | nil => intro b h; simpa using h
  | cons c rest ih =>
    intro b h
    simp only [List.cons_append, hasMatch, Bool.or_eq_true]
    right
    exact ih h

theorem hasMatch_of_all_ws {close : Char} :
    ∀ {w : List Char}, w.all isPyWs = true → hasMatch close w = false := by
  intro w
  induction w with
  | nil => intro _; rfl
  | cons c rest ih =>
    intro hall
    simp only [List.all_cons, Bool.and_eq_true] at hall
    have hc : ¬ c = ',' := by
      intro h
      rw [h] at hall
      exact absurd hall.1 (by decide)
    simp [hasMatch, hc, ih hall.2]

theorem commaThenWsToEnd_of_all_ws :
    ∀ {w : List Char}, w.all isPyWs = true → commaThenWsToEnd w = false := by
  intro w
  induction w with
  | nil => intro _; rfl
  | cons c rest ih =>
    intro hall
    simp only [List.all_cons, Bool.and_eq_true] at hall
    have hc : ¬ c = ',' := by
      intro h
      rw [h] at hall
      exact absurd hall.1 (by decide)
    simp [commaThenWsToEnd, hc, ih hall.2]

theorem reSubAux_of_hasMatch_eq_false {close : Char} :
    ∀ (fuel : Nat) {cs : List Char}, hasMatch close cs = false →
      reSubAux close fuel cs = cs := by
  intro fuel
  induction fuel with
  | zero => intro cs _; rfl
  | succ fuel ih =>
    intro cs h
    match cs with
    | [] => rfl
    | c :: rest =>
      simp only [hasMatch, Bool.or_eq_false_iff, Bool.and_eq_false_iff] at h
      simp only [reSubAux]
      by_cases hc : c = ','
      · rw [if_pos hc]
        have hnone : matchTail close rest = none := by
          rcases h.1 with h' | h'
          · exact absurd hc (by simpa using h')
          · simpa using h'
        rw [hnone]
        rw [ih h.2]
      · rw [if_neg hc, ih h.2]

/-- When no `,\s*close` pattern occurs anywhere in `cs`, the substitution
leaves `cs` unchanged. -/
theorem reSubCommaClose_of_hasMatch_eq_false {close : Char} {cs : List Char}
    (h : hasMatch close cs = false) : reSubCommaClose close cs = cs :=
  reSubAux_of_hasMatch_eq_false cs.length h

theorem reSubAux_append {close : Char} :
    ∀ {body : List Char} (fuel : Nat) (tail : List Char),
      hasMatch close body = false → commaThenWsToEnd body = false →
      reSubAux close (body.length + fuel) (body ++ tail) =
        body ++ reSubAux close fuel tail := by
  intro body
  induction body with
  | nil => intro fuel tail _ _; simp
  | cons c rest ih =>
    intro fuel tail hm hctw
    simp only [hasMatch, Bool.or_eq_false_iff, Bool.and_eq_false_iff] at hm
    simp only [commaThenWsToEnd, Bool.or_eq_false_iff, Bool.and_eq_false_iff] at hctw
    have hlen : (c :: rest).length + fuel = (rest.length + fuel) + 1 := by
      simp only [List.length_cons]
      omega
    rw [hlen]
    simp only [List.cons_append, reSubAux, List.append_eq]
    by_cases hc : c = ','
    · rw [if_pos hc]
      have hnone : matchTail close rest = none := by
        rcases hm.1 with h' | h'
        · exact absurd hc (by simpa using h')
        · simpa using h'
      have hnall : rest.all isPyWs = false := by
        rcases hctw.1 with h' | h'
        · exact absurd hc (by simpa using h')
        · simpa using h'
      rw [matchTail_append_none tail hnone hnall]
      rw [ih fuel tail hm.2 hctw.2]
    · rw [if_neg hc, ih fuel tail hm.2 hctw.2]

/-- Scanning `body ++ tail` where no pattern matches inside `body` and no
match can straddle the boundary copies `body` verbatim. -/
theorem reSubCommaClose_append {close : Char} {body : List Char} (tail : List Char)
    (hm : hasMatch close body = false) (hctw : commaThenWsToEnd body = false) :
    reSubCommaClose close (body ++ tail) = body ++ reSubCommaClose close tail := by
  unfold reSubCommaClose
  rw [List.length_append]
  exact reSubAux_append tail.length tail hm hctw

/-- The substitution rewrites a trailing `,\s*close` into the bare `close`. -/
theorem reSubCommaClose_comma_ws_close {close : Char} (hc : isPyWs close = false)
    {w : List Char} (hw : w.all isPyWs = true) :
    reSubCommaClose close (',' :: (w ++ [close])) = [close] := by
  unfold reSubCommaClose
  have hlen : (',' :: (w ++ [close])).length = (w.length + 1) + 1 := by
    simp
  rw [hlen]
  simp only [reSubAux, if_pos rfl]
  rw [matchTail_ws_close hc hw]
  match w with
  | [] => rfl
  | _ :: _ => rfl

theorem hasMatch_append_all_ws {close : Char} {w : List Char}
    (hw : w.all isPyWs = true) (t : List Char) :
    hasMatch close (w ++ t) = hasMatch close t := by
  induction w with
  | nil => rfl
  | cons c rest ih =>
    simp only [List.all_cons, Bool.and_eq_true] at hw
    have hc : ¬ c = ',' := by
      intro h
      rw [h] at hw
      exact absurd hw.1 (by decide)
    simp only [List.cons_append, hasMatch, hc]
    simp only [decide_eq_true_eq, hc, decide_False, Bool.false_and, Bool.false_or]
    exact ih hw.2

/-! ### Claim C4: the trailing-comma repair -/

/-- C4 (counterexample).  The claim fails as stated: on the JSON array
text `[",]",]` — which contains a trailing comma immediately before its
closing bracket, and whose comma-free form `[",]"]` is valid JSON — the two
regex substitutions also rewrite the `,]` *inside the string literal*, so the
repaired text parses to `["]"]`, not to the structure of `[",]"]`. -/
theorem C4_counterexample :
    jsonParse (String.mk (repairCommas "[\",]\",]".data)) ≠ jsonParse "[\",]\"]" := by
  intro h
  have h' := congrArg (fun x =>
    match x with
    | Except.ok (Json.arr [Json.str s]) => s
    | _ => "") h
  exact absurd h' (by decide)

/-- C4 (amended).  For every JSON text splitting as `body ++ "," ++ w ++
close` with `w` whitespace, `close` a closing bracket or brace, and `body ++
close` valid JSON, *provided* the `,\s*\]` / `,\s*\}` patterns match nowhere
inside `body` (in particular not inside its string literals) and `body` does
not end in a comma followed only by whitespace, the two regex substitutions
delete exactly the trailing comma, producing syntactically valid JSON that
parses to the same structure as the text without that trailing comma. -/
theorem C4_trailing_comma_repair {body w : List Char} {close : Char} {v : Json}
    (hclose : close = ']' ∨ close = '}')
    (hw : w.all isPyWs = true)
    (hm1 : hasMatch ']' body = false)
    (hm2 : hasMatch '}' body = false)
    (hctw : commaThenWsToEnd body = false)
    (hvalid : jsonParse (String.mk (body ++ [close])) = .ok v) :
    repairCommas (body ++ ',' :: (w ++ [close])) = body ++ [close] ∧
    jsonParse (String.mk (repairCommas (body ++ ',' :: (w ++ [close])))) = .ok v := by
  have key : repairCommas (body ++ ',' :: (w ++ [close])) = body ++ [close] := by
    rcases hclose with h | h
    · subst h
      unfold repairCommas
      rw [reSubCommaClose_append (',' :: (w ++ [']'])) hm1 hctw]
      rw [reSubCommaClose_comma_ws_close (by decide) hw]
      rw [reSubCommaClose_append [']'] hm2 hctw]
      rfl
    · subst h
      unfold repairCommas
      rw [reSubCommaClose_append (',' :: (w ++ ['}'])) hm1 hctw]
      have hinner : reSubCommaClose ']' (',' :: (w ++ ['}'])) = ',' :: (w ++ ['}']) := by
        apply reSubCommaClose_of_hasMatch_eq_false
        simp only [hasMatch]
        rw [matchTail_ws_other (by decide) (by decide) (by decide) hw]
        rw [hasMatch_append_all_ws hw ['}']]
        rfl
      rw [hinner]
      rw [reSubCommaClose_append (',' :: (w ++ ['}'])) hm2 hctw]
      rw [reSubCommaClose_comma_ws_close (by decide) hw]
  exact ⟨key, by rw [key]; exact hvalid⟩

/-- C4 (witness).  On the concrete text `[1, ]` the repair yields `[1]`,
which parses to the one-element array `[1]`. -/
theorem C4_trailing_comma_repair_witness :
    repairCommas ("[1".data ++ ',' :: ([' '] ++ [']'])) = "[1".data ++ [']'] ∧
    jsonParse (String.mk (repairCommas ("[1".data ++ ',' :: ([' '] ++ [']'])))) =
      .ok (.arr [.num 1]) :=
  C4_trailing_comma_repair (Or.inl rfl) (by decide) (by decide) (by decide)
    (by decide) (by rfl)

/-! ### Fallback-path lemmas -/

/-- When `json.loads` fails on the cleaned text, `parse_requirements` returns
the single demo record. -/
theorem parse_requirements_fallback {t : String}
    (h : geminiSanitizeFails t = true) :
    parse_requirements (.success t) = .arr [demoRequirementRecord] := by
  unfold geminiSanitizeFails at h
  unfold parse_requirements parse_gemini_json_response
  cases heq : jsonParse (cleanResponse t) with
  | ok v => rw [heq] at h; simp at h
  | error e => simp [heq]

/-- When `json.loads` fails on the cleaned text,
`generate_test_cases_with_compliance` returns the single JSON-error demo
record. -/
theorem generate_test_cases_with_compliance_fallback {t : String}
    (h : geminiSanitizeFails t = true) :
    generate_test_cases_with_compliance (.success t) = .arr [demoTestCaseJsonError] := by
  unfold geminiSanitizeFails at h
  unfold generate_test_cases_with_compliance parse_gemini_json_response
  cases heq : jsonParse (cleanResponse t) with
  | ok v => rw [heq] at h; simp at h
  | error e => simp [heq]

/-- Whenever the requirement-parsing pipeline fails — the call raised, the
parse raised, or the mapping raised — `parse_requirements_from_text` returns
the single demo requirement. -/
theorem parse_requirements_from_text_fallback {o : ModelOutcome}
    (h : healthcareRequirementParseFails o = true) :
    parse_requirements_from_text o = [demoHealthcareRequirement] := by
  cases o with
  | failure => rfl
  | success t =>
    simp only [healthcareRequirementParseFails] at h
    simp only [parse_requirements_from_text]
    cases heq : jsonParse (healthcareFenceStrip t) with
    | error e => simp [heq]
    | ok v =>
      simp only [heq] at h
      cases hd : decodeRequirementList v with
      | some l => simp [hd] at h
      | none => simp [heq, hd]

/-- Whenever the test-case generation pipeline fails,
`generate_test_cases_for_requirement` returns the single sample test case. -/
theorem generate_test_cases_for_requirement_fallback
    {req : HealthcareRequirement} {o : ModelOutcome}
    (h : healthcareTestCaseParseFails o = true) :
    generate_test_cases_for_requirement req o = [fallbackTestCase req] := by
  cases o with
  | failure => rfl
  | success t =>
    simp only [healthcareTestCaseParseFails] at h
    simp only [generate_test_cases_for_requirement]
    cases heq : jsonParse (healthcareFenceStrip t) with
    | error e => simp [heq]
    | ok v =>
      simp only [heq] at h
      cases hd : decodeTestCaseList v with
      | some l => simp [hd] at h
      | none => simp [heq, hd]

/-! ### Claim C1: caller-level fallbacks -/

/-- C1 (counterexample).  The claim fails on
`generate_test_cases_for_requirement`: for a requirement with the realistic
identifier `REQ-001`, its placeholder test case carries the identifier
`TC-REQ-001-001` — exactly the `TC-<requirement_id>-<three_digit_number>`
format the prompt demands of genuinely generated test cases — and contains
no `DEMO` sentinel, so the placeholder is not recognizable by its
identifier. -/
theorem C1_counterexample :
    (generate_test_cases_for_requirement
        { requirement_id := "REQ-001"
          title := "Vital Signs Alert System"
          description := "The system shall generate immediate alerts"
          priority := "Critical"
          acceptance_criteria := ["Alert response time under 1 second"]
          risk_class := "High"
          iec_class := "Class C"
          traceability_links := ["FDA 21CFR820"]
          compliance_standards := ["FDA", "IEC 62304"] } .failure).map
      (fun tc => tc.test_case_id) = ["TC-REQ-001-001"] ∧
    containsDemoSentinel "TC-REQ-001-001" = false :=
  ⟨rfl, by decide⟩

/-- C1 (amended).  On every input on which JSON parsing or record mapping
fails, each caller-level operation returns a sequence of exactly one
placeholder record — never zero and never more than one.  The placeholders of
`parse_requirements`, `generate_test_cases_with_compliance` and
`parse_requirements_from_text` carry a `DEMO` sentinel in their identifier;
the placeholder of `generate_test_cases_for_requirement` instead carries
`TC-<requirement_id>-001`, which follows the genuine identifier format and is
not distinguishable by its identifier alone. -/
theorem C1_fallback_exactly_one (t1 t2 t3 : String) (req : HealthcareRequirement)
    (h1 : geminiSanitizeFails t1 = true)
    (h2 : healthcareRequirementParseFails (.success t2) = true)
    (h3 : healthcareTestCaseParseFails (.success t3) = true) :
    parse_requirements (.success t1) = .arr [demoRequirementRecord] ∧
    parse_requirements .failure = .arr [demoRequirementRecord] ∧
    generate_test_cases_with_compliance (.success t1) = .arr [demoTestCaseJsonError] ∧
    generate_test_cases_with_compliance .failure = .arr [demoTestCaseApiError] ∧
    parse_requirements_from_text (.success t2) = [demoHealthcareRequirement] ∧
    generate_test_cases_for_requirement req (.success t3) = [fallbackTestCase req] ∧
    generate_test_cases_for_requirement req .failure = [fallbackTestCase req] ∧
    containsDemoSentinel "REQ-001-DEMO" = true ∧
    containsDemoSentinel "TC-DEMO-JSON-ERROR" = true ∧
    containsDemoSentinel "TC-DEMO-API-ERROR" = true ∧
    containsDemoSentinel "REQ-DEMO-001" = true ∧
    (fallbackTestCase req).test_case_id = "TC-" ++ req.requirement_id ++ "-001" :=
  ⟨parse_requirements_fallback h1, rfl,
   generate_test_cases_with_compliance_fallback h1, rfl,
   parse_requirements_from_text_fallback h2,
   generate_test_cases_for_requirement_fallback h3, rfl,
   by decide, by decide, by decide, by decide, rfl⟩

/-- C1 (witness).  The text `x` is not JSON, so every pipeline fails on
it; instantiating the amended claim at it and at the demo requirement. -/
theorem C1_fallback_exactly_one_witness :
    geminiSanitizeFails "x" = true ∧
    parse_requirements (.success "x") = .arr [demoRequirementRecord] ∧
    parse_requirements_from_text (.success "x") = [demoHealthcareRequirement] :=
  ⟨by rfl,
   (C1_fallback_exactly_one "x" "x" "x" demoHealthcareRequirement
      (by rfl) (by rfl) (by rfl)).1,
   (C1_fallback_exactly_one "x" "x" "x" demoHealthcareRequirement
      (by rfl) (by rfl) (by rfl)).2.2.2.2.1⟩

/-! ### Claim C2: the sanitizer re-raises -/

set_option maxHeartbeats 4000000 in
/-- C2 (counterexample).  The claim fails as stated: on the fenced
unparseable input below, the raw text is logged only at info severity — no
error-severity entry contains it (the error-severity entries carry the decode
error and the *cleaned* text, which differs from the raw text here) — even
though the sanitizer does re-raise. -/
theorem C2_counterexample :
    (((parse_gemini_json_response
          "```json\n[\x7b\"a\":1\x7d \x7b\"b\":2\x7d]\n```").1.filter
        (fun e => e.level == LogLevel.error)).all
      (fun e => !containsSubstr
          "```json\n[\x7b\"a\":1\x7d \x7b\"b\":2\x7d]\n```".data
          e.message.data)) = true ∧
    (parse_gemini_json_response
        "```json\n[\x7b\"a\":1\x7d \x7b\"b\":2\x7d]\n```").2 =
      .error "Expecting comma or closing bracket" :=
  ⟨by decide, rfl⟩

/-- C2 (amended).  For every input text on which the standard JSON parse
of the repaired text throws, `_parse_gemini_json_response` logs the raw text
at info severity on entry, logs the decode error and the repaired text at
error severity, and re-raises the parse exception to its caller rather than
returning a value; in particular, on the unrepairable input
`[{"a":1} {"b":2}]` (missing comma) the sanitizer raises and
`parse_requirements` substitutes the fixed placeholder record. -/
theorem C2_sanitizer_reraises (t msg : String)
    (h : jsonParse (cleanResponse t) = .error msg) :
    (parse_gemini_json_response t).2 = .error msg ∧
    (parse_gemini_json_response t).1 =
      [⟨.info, "Gemini raw response:\n" ++ t⟩,
       ⟨.error, "Error decoding JSON from Gemini response: " ++ msg⟩,
       ⟨.error, "Problematic cleaned response: " ++ cleanResponse t⟩] ∧
    (parse_gemini_json_response "[\x7b\"a\":1\x7d \x7b\"b\":2\x7d]").2 =
      .error "Expecting comma or closing bracket" ∧
    parse_requirements (.success "[\x7b\"a\":1\x7d \x7b\"b\":2\x7d]") =
      .arr [demoRequirementRecord] := by
  refine ⟨?_, ?_, rfl, rfl⟩
  · simp [parse_gemini_json_response, h]
  · simp [parse_gemini_json_response, h]

/-- C2 (witness).  Instantiating the amended claim at the non-JSON text
`x`. -/
theorem C2_sanitizer_reraises_witness :
    jsonParse (cleanResponse "x") = .error "Expecting value" ∧
    (parse_gemini_json_response "x").2 = .error "Expecting value" :=
  ⟨by rfl, (C2_sanitizer_reraises "x" "Expecting value" (by rfl)).1⟩

/-! ### Claim C3: the fenced trailing-comma scenario -/

/-- C3.  On the input `"```json\n[{"a":1},]\n```"` the sanitizer strips
the code fence, repairs the trailing comma, and returns the parsed structure
`[{"a": 1}]`. -/
theorem C3_scenario_fence_and_trailing_comma :
    (parse_gemini_json_response "```json\n[\x7b\"a\":1\x7d,]\n```").2 =
      .ok (.arr [.obj [("a", .num 1)]]) := rfl

/-! ### Claim C7: missing fields fail the mapping -/

/-- C7.  For every parsed object missing a required field of the target
record type, the mapping into `HealthcareRequirement` or `HealthcareTestCase`
fails at the mapping step (the dataclass call raises `TypeError`) rather than
silently producing a record with the field absent. -/
theorem C7_missing_field_mapping_fails {kw : List (String × Json)} {f : String} :
    (f ∈ requirementFieldNames → kw.lookup f = none →
      decodeRequirement (.obj kw) = none) ∧
    (f ∈ testCaseFieldNames → kw.lookup f = none →
      decodeTestCase (.obj kw) = none) := by
  constructor
  · intro hf hnone
    have hacc : dataclassAccepts requirementFieldNames kw = false := by
      unfold dataclassAccepts
      cases hall : requirementFieldNames.all (fun g => (kw.lookup g).isSome) with
      | true =>
        exfalso
        have := List.all_eq_true.mp hall f hf
        rw [hnone] at this
        simp at this
      | false => simp
    simp [decodeRequirement, hacc]
  · intro hf hnone
    have hacc : dataclassAccepts testCaseFieldNames kw = false := by
      unfold dataclassAccepts
      cases hall : testCaseFieldNames.all (fun g => (kw.lookup g).isSome) with
      | true =>
        exfalso
        have := List.all_eq_true.mp hall f hf
        rw [hnone] at this
        simp at this
      | false => simp
    simp [decodeTestCase, hacc]

/-- C7 (witness).  An object carrying only a `title` is rejected by both
mappings. -/
theorem C7_missing_field_mapping_fails_witness :
    decodeRequirement (.obj [("title", Json.str "T")]) = none ∧
    decodeTestCase (.obj [("title", Json.str "T")]) = none :=
  ⟨(@C7_missing_field_mapping_fails [("title", Json.str "T")] "requirement_id").1
      (by decide) rfl,
   (@C7_missing_field_mapping_fails [("title", Json.str "T")] "test_case_id").2
      (by decide) rfl⟩

/-! ### Claim C8: export compliance-standards resolution -/

/-- C8.  For every test case in the input of an export operation, when its
parent requirement identifier does not resolve to any requirement in the same
batch the exported compliance-standards field is the empty list (Jira) or the
empty string (Azure DevOps), and when it does resolve the field equals that
requirement's `compliance_standards` (joined with `", "` for Azure DevOps). -/
theorem C8_export_compliance_standards
    (tcs : List HealthcareTestCase) (reqs : List HealthcareRequirement)
    (i : Nat) (h1 : i < (export_to_jira_format tcs reqs).length)
    (h2 : i < tcs.length)
    (h3 : i < (export_to_azure_devops_format tcs reqs).length) :
    ((jsonField ((export_to_jira_format tcs reqs).get ⟨i, h1⟩) "fields").bind
        (fun f => jsonField f "customfield_10005") =
      some (match reqMapGet reqs (tcs.get ⟨i, h2⟩).requirement_id with
        | some r => Json.arr (r.compliance_standards.map Json.str)
        | none => Json.arr [])) ∧
    ((jsonField ((export_to_azure_devops_format tcs reqs).get ⟨i, h3⟩) "fields").bind
        (fun f => jsonField f "Custom.ComplianceStandard") =
      some (match reqMapGet reqs (tcs.get ⟨i, h2⟩).requirement_id with
        | some r => Json.str (joinSep ", " r.compliance_standards)
        | none => Json.str "")) := by
  have hj : (export_to_jira_format tcs reqs).get ⟨i, h1⟩ =
      jiraRecord reqs (tcs.get ⟨i, h2⟩) := by
    simp [export_to_jira_format]
  have ha : (export_to_azure_devops_format tcs reqs).get ⟨i, h3⟩ =
      azureRecord reqs (tcs.get ⟨i, h2⟩) := by
    simp [export_to_azure_devops_format]
  rw [hj, ha]
  constructor
  · cases hr : reqMapGet reqs (tcs.get ⟨i, h2⟩).requirement_id with
    | none => simp only [jiraRecord, hr]; rfl
    | some r => simp only [jiraRecord, hr]; rfl
  · cases hr : reqMapGet reqs (tcs.get ⟨i, h2⟩).requirement_id with
    | none => simp only [azureRecord, hr]; rfl
    | some r => simp only [azureRecord, hr]; rfl

/-- C8 (witness).  One test case whose parent resolves to the demo
requirement: both exports carry its compliance standards. -/
theorem C8_export_compliance_standards_witness :
    ((jsonField ((export_to_jira_format [fallbackTestCase demoHealthcareRequirement]
            [demoHealthcareRequirement]).get ⟨0, by decide⟩) "fields").bind
        (fun f => jsonField f "customfield_10005") =
      some (Json.arr [Json.str "FDA", Json.str "IEC 62304"])) ∧
    ((jsonField ((export_to_azure_devops_format [fallbackTestCase demoHealthcareRequirement]
            [demoHealthcareRequirement]).get ⟨0, by decide⟩) "fields").bind
        (fun f => jsonField f "Custom.ComplianceStandard") =
      some (Json.str "FDA, IEC 62304")) :=
  ⟨(C8_export_compliance_standards [fallbackTestCase demoHealthcareRequirement]
      [demoHealthcareRequirement] 0 (by decide) (by decide) (by decide)).1,
   (C8_export_compliance_standards [fallbackTestCase demoHealthcareRequirement]
      [demoHealthcareRequirement] 0 (by decide) (by decide) (by decide)).2⟩

/-! ### Claim C9: the traceability matrix -/

/-- C9.  For every list of parsed requirements, the traceability matrix
contains exactly one entry per requirement, in parse order; each entry's
`test_coverage` equals the number of test cases in the batch whose
`requirement_id` matches that requirement, its `test_cases` field lists
exactly the matching identifiers, and a requirement with zero matching test
cases still appears, with coverage zero and an empty identifier list. -/
theorem C9_traceability_matrix (reqs : List HealthcareRequirement)
    (tcs : List HealthcareTestCase) :
    (generate_traceability_matrix reqs tcs).length = reqs.length ∧
    ∀ (i : Nat) (h1 : i < (generate_traceability_matrix reqs tcs).length)
      (h2 : i < reqs.length),
      jsonField ((generate_traceability_matrix reqs tcs).get ⟨i, h1⟩)
          "requirement_id" =
        some (.str (reqs.get ⟨i, h2⟩).requirement_id) ∧
      jsonField ((generate_traceability_matrix reqs tcs).get ⟨i, h1⟩)
          "test_coverage" =
        some (.num (tcs.countP
          (fun tc => tc.requirement_id == (reqs.get ⟨i, h2⟩).requirement_id))) ∧
      jsonField ((generate_traceability_matrix reqs tcs).get ⟨i, h1⟩)
          "test_cases" =
        some (.arr ((tcs.filter
          (fun tc => tc.requirement_id == (reqs.get ⟨i, h2⟩).requirement_id)).map
            (fun tc => Json.str tc.test_case_id))) ∧
      (tcs.countP
          (fun tc => tc.requirement_id == (reqs.get ⟨i, h2⟩).requirement_id) = 0 →
        jsonField ((generate_traceability_matrix reqs tcs).get ⟨i, h1⟩)
            "test_cases" = some (.arr []) ∧
        jsonField ((generate_traceability_matrix reqs tcs).get ⟨i, h1⟩)
            "test_coverage" = some (.num 0)) := by
  refine ⟨by simp [generate_traceability_matrix], ?_⟩
  intro i h1 h2
  have hget : (generate_traceability_matrix reqs tcs).get ⟨i, h1⟩ =
      traceabilityEntry tcs (reqs.get ⟨i, h2⟩) := by
    simp [generate_traceability_matrix]
  rw [hget]
  have hcount : tcs.countP
      (fun tc => tc.requirement_id == (reqs.get ⟨i, h2⟩).requirement_id) =
      (tcs.filter
        (fun tc => tc.requirement_id == (reqs.get ⟨i, h2⟩).requirement_id)).length :=
    List.countP_eq_length_filter _ _
  refine ⟨rfl, ?_, rfl, ?_⟩
  · rw [hcount]
    rfl
  · intro h0
    rw [hcount] at h0
    have hfil : tcs.filter
        (fun tc => tc.requirement_id == (reqs.get ⟨i, h2⟩).requirement_id) = [] :=
      List.length_eq_zero.mp h0
    constructor
    · show some (Json.arr ((tcs.filter
          (fun tc => tc.requirement_id == (reqs.get ⟨i, h2⟩).requirement_id)).map
            (fun tc => Json.str tc.test_case_id))) = some (Json.arr [])
      rw [hfil]
      rfl
    · show some (Json.num ((tcs.filter
          (fun tc => tc.requirement_id == (reqs.get ⟨i, h2⟩).requirement_id)).length))
        = some (Json.num 0)
      rw [hfil]
      rfl

/-- C9 (witness).  A batch with one requirement and no test cases: the
matrix still has one entry, with coverage zero and an empty list. -/
theorem C9_traceability_matrix_witness :
    jsonField ((generate_traceability_matrix [demoHealthcareRequirement] []).get
        ⟨0, by decide⟩) "test_cases" = some (.arr []) ∧
    jsonField ((generate_traceability_matrix [demoHealthcareRequirement] []).get
        ⟨0, by decide⟩) "test_coverage" = some (.num 0) :=
  ((C9_traceability_matrix [demoHealthcareRequirement] []).2 0 (by decide)
    (by decide)).2.2.2 (by rfl)

/-! ### Claim C10: the pipeline and the coverage guard -/

/-- C10 (counterexample).  The claim fails as stated: when the model call
succeeds with the valid empty array `[]`, `parse_requirements_from_text`
returns zero requirements without raising (an empty array is a success, not a
failure), the pipeline produces zero test cases, and the summary takes the
zero-denominator guard branch — so the guard is reachable. -/
theorem C10_counterexample :
    (process_healthcare_document (.success "[]") (fun _ => .failure)).requirements
        = [] ∧
    (process_healthcare_document (.success "[]") (fun _ => .failure)).test_cases
        = [] ∧
    (process_healthcare_document (.success "[]")
        (fun _ => .failure)).summary.coverage_percentage = 0 :=
  ⟨by rfl, by rfl, by rfl⟩

/-- C10 (amended).  Whenever the requirement parse falls back (the call
raised, the parse raised, or the mapping raised), the pipeline holds exactly
one (placeholder) requirement; and whenever the parsed requirement list is
nonempty, the coverage percentage is computed by the division with a nonzero
denominator.  The guard branch remains reachable: a successfully parsed empty
array yields zero requirements. -/
theorem C10_pipeline_guard (ro : ModelOutcome) (g : Nat → ModelOutcome) :
    (healthcareRequirementParseFails ro = true →
      (process_healthcare_document ro g).requirements = [demoHealthcareRequirement]) ∧
    ((process_healthcare_document ro g).requirements ≠ [] →
      ((process_healthcare_document ro g).summary.total_requirements : Rat) ≠ 0 ∧
      (process_healthcare_document ro g).summary.coverage_percentage =
        ((process_healthcare_document ro g).summary.total_test_cases : Rat) /
          ((process_healthcare_document ro g).summary.total_requirements : Rat)
            * 100) := by
  constructor
  · intro h
    show parse_requirements_from_text ro = [demoHealthcareRequirement]
    exact parse_requirements_from_text_fallback h
  · intro hne
    have hne' : parse_requirements_from_text ro ≠ [] := hne
    have hlen : (parse_requirements_from_text ro).length ≠ 0 := by
      intro h0
      exact hne' (List.length_eq_zero.mp h0)
    have hempty : (parse_requirements_from_text ro).isEmpty = false := by
      cases hcase : parse_requirements_from_text ro with
      | nil => exact absurd hcase hne'
      | cons a l => rfl
    constructor
    · show ((parse_requirements_from_text ro).length : Rat) ≠ 0
      exact_mod_cast hlen
    · simp [process_healthcare_document, hempty]

/-- C10 (witness).  A failed requirement-parse call: the pipeline holds
exactly the placeholder requirement and the coverage denominator is
nonzero. -/
theorem C10_pipeline_guard_witness :
    (process_healthcare_document .failure (fun _ => .failure)).requirements =
      [demoHealthcareRequirement] ∧
    ((process_healthcare_document .failure
        (fun _ => .failure)).summary.total_requirements : Rat) ≠ 0 :=
  ⟨(C10_pipeline_guard .failure (fun _ => .failure)).1 (by rfl),
   ((C10_pipeline_guard .failure (fun _ => .failure)).2
      (by show [demoHealthcareRequirement] ≠ []; simp)).1⟩

/-! ### Lemmas about `strip`, `replace` and `split` -/

theorem dropWhile_eq_self_of_head {p : Char → Bool} :
    ∀ {cs : List Char}, (∀ c, cs.head? = some c → p c = false) →
      cs.dropWhile p = cs := by
  intro cs h
  cases cs with
  | nil => rfl
  | cons c rest =>
    have hc : p c = false := h c rfl
    rw [List.dropWhile_cons_of_neg (by simp [hc])]

theorem dropTrailingWs_eq_self {cs : List Char}
    (h : ∀ c, cs.getLast? = some c → isPyWs c = false) :
    dropTrailingWs cs = cs := by
  unfold dropTrailingWs
  have hh : cs.reverse.dropWhile isPyWs = cs.reverse := by
    apply dropWhile_eq_self_of_head
    intro c hc
    rw [List.head?_reverse] at hc
    exact h c hc
  rw [hh, List.reverse_reverse]

theorem stripChars_eq_self {cs : List Char}
    (h1 : ∀ c, cs.head? = some c → isPyWs c = false)
    (h2 : ∀ c, cs.getLast? = some c → isPyWs c = false) :
    stripChars cs = cs := by
  unfold stripChars
  rw [dropWhile_eq_self_of_head h1]
  exact dropTrailingWs_eq_self h2

theorem dropWhile_dropWhile (p : Char → Bool) (cs : List Char) :
    (cs.dropWhile p).dropWhile p = cs.dropWhile p := by
  induction cs with
  | nil => rfl
  | cons c rest ih =>
    by_cases hc : p c = true
    · rw [List.dropWhile_cons_of_pos hc]
      exact ih
    · have hc' : p c = false := by
        cases hcc : p c
        · rfl
        · exact absurd hcc hc
      rw [List.dropWhile_cons_of_neg (by simp [hc'])]
      rw [List.dropWhile_cons_of_neg (by simp [hc'])]

theorem dropWhile_eq_self_of_append {p : Char → Bool} :
    ∀ {e : List Char} (r : List Char), (e ++ r).dropWhile p = e ++ r →
      e.dropWhile p = e := by
  intro e
  cases e with
  | nil => intro r _; rfl
  | cons x e2 =>
    intro r h
    simp only [List.cons_append] at h
    by_cases hx : p x = true
    · exfalso
      rw [List.dropWhile_cons_of_pos hx] at h
      have hsub : ((e2 ++ r).dropWhile p).Sublist (e2 ++ r) :=
        List.dropWhile_sublist _
      have hle := List.Sublist.length_le hsub
      rw [h] at hle
      simp only [List.length_cons] at hle
      omega
    · have hx' : p x = false := by
        cases hcc : p x
        · rfl
        · exact absurd hcc hx
      rw [List.dropWhile_cons_of_neg (by simp [hx'])]

/-- The list `dropTrailingWs x` is a prefix of `x`: appending the removed
whitespace suffix restores `x`. -/
theorem dropTrailingWs_append_ws (x : List Char) :
    dropTrailingWs x ++ (x.reverse.takeWhile isPyWs).reverse = x := by
  unfold dropTrailingWs
  calc (x.reverse.dropWhile isPyWs).reverse ++ (x.reverse.takeWhile isPyWs).reverse
      = (x.reverse.takeWhile isPyWs ++ x.reverse.dropWhile isPyWs).reverse := by
        rw [List.reverse_append]
    _ = x.reverse.reverse := by rw [List.takeWhile_append_dropWhile]
    _ = x := List.reverse_reverse x

theorem dropTrailingWs_idem (d : List Char) :
    dropTrailingWs (dropTrailingWs d) = dropTrailingWs d := by
  unfold dropTrailingWs
  rw [List.reverse_reverse]
  rw [dropWhile_dropWhile]

theorem stripChars_idem (d : List Char) :
    stripChars (stripChars d) = stripChars d := by
  unfold stripChars
  have hx : (d.dropWhile isPyWs).dropWhile isPyWs = d.dropWhile isPyWs :=
    dropWhile_dropWhile isPyWs d
  have h1 : (dropTrailingWs (d.dropWhile isPyWs)).dropWhile isPyWs =
      dropTrailingWs (d.dropWhile isPyWs) := by
    apply dropWhile_eq_self_of_append ((d.dropWhile isPyWs).reverse.takeWhile isPyWs).reverse
    rw [dropTrailingWs_append_ws]
    exact hx
  rw [h1, dropTrailingWs_idem]

theorem hasMatch_stripChars {close : Char} {cs : List Char}
    (h : hasMatch close cs = false) : hasMatch close (stripChars cs) = false := by
  have h2 : hasMatch close (cs.dropWhile isPyWs) = false := by
    cases hm : hasMatch close (cs.dropWhile isPyWs) with
    | false => rfl
    | true =>
      exfalso
      have hfull := hasMatch_append_right (cs.takeWhile isPyWs) hm
      rw [List.takeWhile_append_dropWhile] at hfull
      rw [hfull] at h
      simp at h
  cases hm : hasMatch close (stripChars cs) with
  | false => rfl
  | true =>
    exfalso
    have hfull := hasMatch_append_left
      (((cs.dropWhile isPyWs).reverse.takeWhile isPyWs).reverse) hm
    rw [stripChars] at hfull
    rw [dropTrailingWs_append_ws] at hfull
    rw [hfull] at h2
    simp at h2

theorem noBacktick_stripChars {cs : List Char}
    (h : noBacktick cs = true) : noBacktick (stripChars cs) = true := by
  have h2 : noBacktick (cs.dropWhile isPyWs) = true := by
    have := List.takeWhile_append_dropWhile isPyWs cs
    unfold noBacktick at h ⊢
    rw [← this, List.all_append, Bool.and_eq_true] at h
    exact h.2
  unfold noBacktick at h2 ⊢
  have hsplit := dropTrailingWs_append_ws (cs.dropWhile isPyWs)
  rw [← hsplit, List.all_append, Bool.and_eq_true] at h2
  exact h2.1

theorem replaceAllAux_clean {pr rep : List Char} :
    ∀ (fuel : Nat) {cs : List Char}, noBacktick cs = true →
      replaceAllAux ('`' :: pr) rep fuel cs = cs := by
  intro fuel
  induction fuel with
  | zero => intro cs _; rfl
  | succ fuel ih =>
    intro cs h
    match cs with
    | [] => rfl
    | c :: rest =>
      simp only [noBacktick, List.all_cons, Bool.and_eq_true] at h
      have hc : ('`' == c) = false := by
        cases hbc : ('`' == c)
        · rfl
        · exfalso
          have hcc := eq_of_beq hbc
          rw [← hcc] at h
          simp at h
      have hpre : ('`' :: pr).isPrefixOf (c :: rest) = false := by
        simp only [List.isPrefixOf, hc, Bool.false_and]
      simp only [replaceAllAux]
      rw [if_neg (by simp [hpre])]
      have h2 : noBacktick rest = true := h.2
      rw [ih h2]

theorem replaceAll_clean {pr rep : List Char} {cs : List Char}
    (h : noBacktick cs = true) : replaceAll ('`' :: pr) rep cs = cs :=
  replaceAllAux_clean cs.length h

theorem replaceAllAux_clean_append {pr rep : List Char} :
    ∀ {cs : List Char} (fuel : Nat) (t : List Char), noBacktick cs = true →
      replaceAllAux ('`' :: pr) rep (cs.length + fuel) (cs ++ t) =
        cs ++ replaceAllAux ('`' :: pr) rep fuel t := by
  intro cs
  induction cs with
  | nil => intro fuel t _; simp
  | cons c rest ih =>
    intro fuel t h
    simp only [noBacktick, List.all_cons, Bool.and_eq_true] at h
    have hc : ('`' == c) = false := by
      cases hbc : ('`' == c)
      · rfl
      · exfalso
        have hcc := eq_of_beq hbc
        rw [← hcc] at h
        simp at h
    have hlen : (c :: rest).length + fuel = (rest.length + fuel) + 1 := by
      simp only [List.length_cons]
      omega
    rw [hlen]
    simp only [List.cons_append, replaceAllAux, List.append_eq]
    have hpre : ('`' :: pr).isPrefixOf (c :: (rest ++ t)) = false := by
      simp only [List.isPrefixOf, hc, Bool.false_and]
    rw [if_neg (by simp [hpre])]
    have h2 : noBacktick rest = true := h.2
    rw [ih fuel t h2]

theorem replaceAllAux_head_match {q : Char} {qr rep : List Char} (fuel : Nat)
    (t : List Char) :
    replaceAllAux (q :: qr) rep (fuel + 1) ((q :: qr) ++ t) =
      rep ++ replaceAllAux (q :: qr) rep fuel t := by
  have hdrop : (q :: (qr ++ t)).drop (q :: qr).length = t := by
    have h := List.drop_left (q :: qr) t
    simp only [List.cons_append] at h
    exact h
  simp only [List.cons_append, replaceAllAux, List.append_eq]
  rw [if_pos]
  · rw [hdrop]
  · constructor
    · simp
    · show (q :: qr).isPrefixOf (q :: (qr ++ t)) = true
      exact List.isPrefixOf_iff_prefix.mpr (List.prefix_append _ _)

theorem splitFirst_head_match {q : Char} {qr : List Char} (t : List Char) :
    splitFirst (q :: qr) ((q :: qr) ++ t) = some ([], t) := by
  have hdrop : (q :: (qr ++ t)).drop (q :: qr).length = t := by
    have h := List.drop_left (q :: qr) t
    simp only [List.cons_append] at h
    exact h
  simp only [List.cons_append, splitFirst, List.append_eq]
  rw [if_pos]
  · rw [hdrop]
  · constructor
    · simp
    · show (q :: qr).isPrefixOf (q :: (qr ++ t)) = true
      exact List.isPrefixOf_iff_prefix.mpr (List.prefix_append _ _)

theorem splitFirst_clean_append {pr : List Char} :
    ∀ {cs : List Char} (t : List Char), noBacktick cs = true →
      splitFirst ('`' :: pr) (cs ++ t) =
        match splitFirst ('`' :: pr) t with
        | some pq => some (cs ++ pq.1, pq.2)
        | none => none := by
  intro cs
  induction cs with
  | nil =>
    intro t _
    simp only [List.nil_append]
    cases hs : splitFirst ('`' :: pr) t with
    | some pq => simp
    | none => rfl
  | cons c rest ih =>
    intro t h
    simp only [noBacktick, List.all_cons, Bool.and_eq_true] at h
    have hc : ('`' == c) = false := by
      cases hbc : ('`' == c)
      · rfl
      · exfalso
        have hcc := eq_of_beq hbc
        rw [← hcc] at h
        simp at h
    have hpre : ('`' :: pr).isPrefixOf (c :: (rest ++ t)) = false := by
      simp only [List.isPrefixOf, hc, Bool.false_and]
    simp only [List.cons_append, splitFirst, List.append_eq]
    rw [if_neg (by simp [hpre])]
    have h2 : noBacktick rest = true := h.2
    rw [ih t h2]
    cases hs : splitFirst ('`' :: pr) t with
    | some pq => simp
    | none => rfl

/-! ### Assembly lemmas for the sanitizer on clean input -/

/-- On a fence-free, repair-pattern-free text the cleaning pipeline only
strips surrounding whitespace. -/
theorem cleanResponse_of_clean {s : String}
    (hb : noBacktick s.data = true)
    (hm1 : hasMatch ']' s.data = false)
    (hm2 : hasMatch '}' s.data = false) :
    cleanResponse s = String.mk (stripChars s.data) := by
  have hb' : noBacktick (stripChars s.data) = true := noBacktick_stripChars hb
  have ht1 : tickJson = '`' :: "``json".data := rfl
  have ht2 : tick3 = '`' :: "``".data := rfl
  unfold cleanResponse gemFenceStrip repairCommas
  rw [ht1, ht2]
  rw [replaceAll_clean hb', replaceAll_clean hb', stripChars_idem]
  rw [reSubCommaClose_of_hasMatch_eq_false (hasMatch_stripChars hm1)]
  rw [reSubCommaClose_of_hasMatch_eq_false (hasMatch_stripChars hm2)]

/-- The model of `json.loads` is insensitive to an outer whitespace strip. -/
theorem jsonParse_mk_stripChars (s : String) :
    jsonParse (String.mk (stripChars s.data)) = jsonParse s := by
  unfold jsonParse
  have e : (String.mk (stripChars s.data)).data = stripChars s.data := rfl
  rw [e, stripChars_idem]

/-- The result of the sanitizer is the result of `json.loads` on the cleaned
text. -/
theorem parse_gemini_json_response_snd (s : String) :
    (parse_gemini_json_response s).2 = jsonParse (cleanResponse s) := by
  unfold parse_gemini_json_response
  cases hq : jsonParse (cleanResponse s) with
  | ok w => simp [hq]
  | error e => simp [hq]

/-! ### Claim C6: idempotence on already-valid input -/

/-- C6 (counterexample).  The claim fails as stated: `[",]"]` is a
well-formed JSON array text with no code fences and no trailing commas, yet
the repair step rewrites the `,]` inside its string literal, so sanitizing
and parsing yields `["]"]` instead of the directly parsed `[",]"]`. -/
theorem C6_counterexample :
    (parse_gemini_json_response "[\",]\"]").2 ≠ jsonParse "[\",]\"]" := by
  intro h
  have h' := congrArg (fun x =>
    match x with
    | Except.ok (Json.arr [Json.str s]) => s
    | _ => "") h
  exact absurd h' (by decide)

/-- C6 (amended).  For every well-formed JSON text with no formatting
defects — no backtick (hence no code fence) and no occurrence of the
`,\s*\]` / `,\s*\}` repair patterns, not even inside string literals —
sanitizing and parsing yields exactly the structure obtained by parsing the
text directly: the fence-stripping and comma-repair steps leave the
already-valid input unmodified. -/
theorem C6_sanitize_identity (s : String) (v : Json)
    (hb : noBacktick s.data = true)
    (hm1 : hasMatch ']' s.data = false)
    (hm2 : hasMatch '}' s.data = false)
    (hok : jsonParse s = .ok v) :
    (parse_gemini_json_response s).2 = jsonParse s ∧
    (parse_gemini_json_response s).2 = .ok v := by
  have hp : jsonParse (cleanResponse s) = jsonParse s := by
    rw [cleanResponse_of_clean hb hm1 hm2, jsonParse_mk_stripChars]
  rw [parse_gemini_json_response_snd, hp]
  exact ⟨rfl, hok⟩

/-- C6 (witness).  The already-valid array text `[1, 2]` passes through
the sanitizer unchanged. -/
theorem C6_sanitize_identity_witness :
    (parse_gemini_json_response "[1, 2]").2 = jsonParse "[1, 2]" ∧
    (parse_gemini_json_response "[1, 2]").2 = .ok (.arr [.num 1, .num 2]) :=
  C6_sanitize_identity "[1, 2]" (.arr [.num 1, .num 2])
    (by decide) (by decide) (by decide) (by rfl)

/-! ### Claim C5: fence stripping -/

/-- C5 (counterexample).  The claim fails as stated: the healthcare
stripper (`parse_requirements_from_text`, lines 249–251) only strips when the
text starts with the tagged marker `"```json"`, so a payload wrapped in bare
`"```"` markers is passed through with its fences intact, unlike the payload
passed directly. -/
theorem C5_counterexample :
    healthcareFenceStrip "```\n[1]\n```" ≠ healthcareFenceStrip "\n[1]\n" := by
  decide

/-- C5 (amended).  For every backtick-free payload wrapped in the tagged
code-fence marker (`"```json"` before, `"```"` after): the gemini_integration
stripping step yields output identical to passing the unwrapped payload
directly (both reduce to the whitespace-stripped payload), and the healthcare
stripping step yields the payload verbatim.  Bare-marker wrapping and markers
not at the start of the text are handled only by the gemini_integration
variant, not by the healthcare variant. -/
theorem C5_fence_strip (p : String) (hb : noBacktick p.data = true) :
    gemFenceStrip ("```json" ++ p ++ "```").data = gemFenceStrip p.data ∧
    healthcareFenceStrip ("```json" ++ p ++ "```") = p := by
  have ht1 : tickJson = '`' :: "``json".data := rfl
  have ht2 : tick3 = '`' :: "``".data := rfl
  have hdata : ("```json" ++ p ++ "```").data = tickJson ++ (p.data ++ tick3) := by
    rw [String.data_append, String.data_append, List.append_assoc]
    rfl
  have hstrip : stripChars (tickJson ++ (p.data ++ tick3)) =
      tickJson ++ (p.data ++ tick3) := by
    apply stripChars_eq_self
    · intro c hc
      have hh : (tickJson ++ (p.data ++ tick3)).head? = some '`' := by
        rw [ht1]
        rfl
      rw [hh] at hc
      cases hc
      decide
    · intro c hc
      have h1 : (p.data ++ tick3).getLast? = some '`' := by
        rw [List.getLast?_append]
        rfl
      have h2 : (tickJson ++ (p.data ++ tick3)).getLast? = some '`' := by
        rw [List.getLast?_append, h1]
        rfl
      rw [h2] at hc
      cases hc
      decide
  have hlen1 : (tickJson ++ (p.data ++ tick3)).length = (p.data.length + 9) + 1 := by
    simp only [List.length_append, ht1, ht2, List.length_cons]
    simp
    omega
  have hrepl1 : replaceAll tickJson [] (tickJson ++ (p.data ++ tick3)) =
      p.data ++ tick3 := by
    unfold replaceAll
    rw [hlen1, ht1]
    rw [replaceAllAux_head_match]
    have e9 : replaceAllAux ('`' :: "``json".data) [] 9 tick3 = tick3 := by decide
    rw [replaceAllAux_clean_append 9 tick3 hb, e9, ht2]
    simp
  have hlen2 : (p.data ++ tick3).length = p.data.length + 3 := by
    simp only [List.length_append, ht2, List.length_cons]
    simp
  have hrepl2 : replaceAll tick3 [] (p.data ++ tick3) = p.data := by
    unfold replaceAll
    rw [hlen2, ht2]
    rw [replaceAllAux_clean_append 3 ('`' :: "``".data) hb]
    have e3 : replaceAllAux ('`' :: "``".data) [] 3 ('`' :: "``".data) = [] := by decide
    rw [e3, List.append_nil]
  constructor
  · -- the gemini_integration stripping step
    have hb' : noBacktick (stripChars p.data) = true := noBacktick_stripChars hb
    unfold gemFenceStrip
    rw [hdata, hstrip, hrepl1, hrepl2]
    rw [ht1, ht2]
    rw [replaceAll_clean hb', replaceAll_clean hb', stripChars_idem]
  · -- the healthcare stripping step
    unfold healthcareFenceStrip
    rw [hdata, hstrip]
    rw [if_pos (List.isPrefixOf_iff_prefix.mpr (List.prefix_append _ _))]
    have hsec : secondSegment tickJson (tickJson ++ (p.data ++ tick3)) =
        p.data ++ tick3 := by
      unfold secondSegment
      rw [ht1, splitFirst_head_match]
      have hnone : splitFirst ('`' :: "``json".data) (p.data ++ tick3) = none := by
        rw [splitFirst_clean_append tick3 hb]
        have hz : splitFirst ('`' :: "``json".data) tick3 = none := by decide
        simp only [hz]
      simp only [hnone]
    rw [hsec]
    have hbefore : beforeFirst tick3 (p.data ++ tick3) = p.data := by
      unfold beforeFirst
      rw [ht2]
      rw [splitFirst_clean_append ('`' :: "``".data) hb]
      have hsp : splitFirst ('`' :: "``".data) ('`' :: "``".data) = some ([], []) := by
        decide
      simp only [hsp]
      simp
    rw [hbefore]

/-- C5 (witness).  The payload `[1]` wrapped in the tagged fence. -/
theorem C5_fence_strip_witness :
    gemFenceStrip ("```json" ++ "[1]" ++ "```").data = gemFenceStrip "[1]".data ∧
    healthcareFenceStrip ("```json" ++ "[1]" ++ "```") = "[1]" :=
  C5_fence_strip "[1]" (by decide)

end KnowledgeExtractor
